import Mathlib

/-!
Verification of the status/queue reconciliation and derived-metrics engine of
the dispatch-obsidian companion plugin (src/main.ts and the richer variant
src/unnamed/part_000).

Shallow embedding conventions:
* JS timestamps (milliseconds since epoch) are `Int`; word counts are `Nat`.
* The external status file read (`vault.getAbstractFileByPath` + `vault.read`
  + `JSON.parse`) is a parameter `Option (Except Unit DispatchStatus)`:
  `none` = the file is absent (the TS `if (file && file instanceof TFile)`
  guard fails), `some (Except.error _)` = the read or `JSON.parse` throws,
  `some (Except.ok s)` = the file parses to `s`.
* JS objects used as string maps (`Record<string, string>`) are association
  lists in insertion order: assignment to an existing key updates it in
  place, assignment to a new key appends, `delete` removes the pair.
* `"YYYY-MM-DD"` date strings are modelled as `Nat` day indices (days since
  an epoch): lexicographic order on fixed-format date strings agrees with the
  calendar order, `moment.isSame/isBefore(-, "day")` is `=`/`<` on indices and
  `subtract(1, "day")` is truncated predecessor.
-/

/-! ## Data model (interfaces of src/main.ts lines 50-78, part_000 lines 59-88) -/

/-- Aggregate stats block of the external status file. -/
structure DispatchStats where
  total : Nat
  drafts : Nat
  published : Nat
  total_words : Nat
deriving DecidableEq

/-- Per-file entry of the external status file. `modified` is a JS ms timestamp. -/
structure DispatchStatusFile where
  path : String
  slug : String
  title : Option String
  published_url : Option String
  warnings : List String
  word_count : Nat
  is_safe : Bool
  unlisted : Bool
  has_password : Bool
  modified : Int
deriving DecidableEq

/-- The external status snapshot. `updated_at` (an ISO string in TS, read back
through `new Date(...).getTime()`) is modelled directly as the ms timestamp.
`last_publish` exists only in the part_000 variant; the main.ts code never
reads it, so one structure serves both variants. -/
structure DispatchStatus where
  updated_at : Int
  last_publish : Option String
  files : List DispatchStatusFile
  stats : DispatchStats
deriving DecidableEq

/-- The publish queue persisted at .dispatch/queue.json. `notes` is a JS
object keyed by path, modelled as an insertion-ordered association list. -/
structure DispatchQueue where
  updated_at : Int
  ready : List String
  notes : List (String × String)
deriving DecidableEq

/-! ## QueueManager (markReady / unmarkReady, main.ts 808-840, part_000 894-926) -/

/-- JS `obj[k] = v` on a string-keyed object: update in place if the key
exists, else append. -/
def setNote : List (String × String) → String → String → List (String × String)
  | [], k, v => [(k, v)]
  | (k', v') :: rest, k, v =>
      if k' = k then (k, v) :: rest else (k', v') :: setNote rest k v

/-- JS `delete obj[k]`. -/
def delNote (notes : List (String × String)) (k : String) : List (String × String) :=
  notes.filter (fun kv => kv.1 != k)

/-- JS `obj[k]` as a lookup. -/
def getNote (notes : List (String × String)) (k : String) : Option String :=
  (notes.find? (fun kv => kv.1 == k)).map Prod.snd

/-- The default note markReady stores when called without a (truthy) note. -/
def defaultNote : String := "Ready for review"

/-- `if (note) {...note} else {...default}`: JS treats `undefined` and the
empty string as falsy. -/
def noteValue : Option String → String
  | some s => if s = "" then defaultNote else s
  | none => defaultNote

/-- The empty queue markReady builds when `this.dispatchQueue` is null. -/
def emptyQueue (now : Int) : DispatchQueue :=
  { updated_at := now, ready := [], notes := [] }

/-- `markReady(file, note?)`: init the queue if null, append the path to
`ready` unless already present, set the note (or the default), then
`saveDispatchQueue` stamps `updated_at := now`. -/
def markReady (q : Option DispatchQueue) (path : String) (note : Option String)
    (now : Int) : DispatchQueue :=
  let q0 := match q with
    | none => emptyQueue now
    | some q => q
  let ready := if q0.ready.contains path then q0.ready else q0.ready ++ [path]
  { updated_at := now, ready := ready, notes := setNote q0.notes path (noteValue note) }

/-- `unmarkReady(file)`: no-op on a null queue; else filter the path out of
`ready`, delete its note, and stamp `updated_at := now` on save. -/
def unmarkReady (q : Option DispatchQueue) (path : String) (now : Int) :
    Option DispatchQueue :=
  match q with
  | none => none
  | some q0 =>
      some { updated_at := now,
             ready := q0.ready.filter (fun p => p != path),
             notes := delNote q0.notes path }

lemma getNote_setNote (notes : List (String × String)) (k v : String) :
    getNote (setNote notes k v) k = some v := by
  induction notes with
  | nil => simp [setNote, getNote, List.find?]
  | cons kv rest ih =>
      obtain ⟨k', v'⟩ := kv
      by_cases h : k' = k
      · simp [setNote, h, getNote, List.find?]
      · simp only [setNote, if_neg h, getNote] at *
        rw [List.find?_cons_of_neg]
        · exact ih
        · simpa using h

lemma delNote_setNote (notes : List (String × String)) (k v : String)
    (h : ∀ kv ∈ notes, kv.1 ≠ k) :
    delNote (setNote notes k v) k = notes := by
  induction notes with
  | nil => simp [setNote, delNote]
  | cons kv rest ih =>
      obtain ⟨k', v'⟩ := kv
      have hk' : k' ≠ k := h (k', v') (List.mem_cons_self _ _)
      have hrest : delNote (setNote rest k v) k = rest :=
        ih (fun kv hkv => h kv (List.mem_cons_of_mem _ hkv))
      have hb : ((k', v').1 != k) = true := by
        simpa using hk'
      simp only [setNote, if_neg hk', delNote] at *
      simp [List.filter_cons, hb, hrest]

lemma mem_setNote (notes : List (String × String)) (k v : String) (kv : String × String)
    (h : kv ∈ setNote notes k v) : kv = (k, v) ∨ kv ∈ notes := by
  induction notes with
  | nil => simpa [setNote] using h
  | cons kv' rest ih =>
      obtain ⟨k', v'⟩ := kv'
      by_cases hk : k' = k
      · simp only [setNote, if_pos hk] at h
        rcases List.mem_cons.mp h with h1 | h2
        · exact Or.inl h1
        · exact Or.inr (List.mem_cons_of_mem _ h2)
      · simp only [setNote, if_neg hk] at h
        rcases List.mem_cons.mp h with h1 | h2
        · exact Or.inr (h1 ▸ List.mem_cons_self _ _)
        · rcases ih h2 with h3 | h4
          · exact Or.inl h3
          · exact Or.inr (List.mem_cons_of_mem _ h4)

lemma markReady_ready_of_mem (q : DispatchQueue) (p : String) (note : Option String)
    (now : Int) (h : p ∈ q.ready) : (markReady (some q) p note now).ready = q.ready := by
  simp [markReady, h]

lemma markReady_ready_of_not_mem (q : DispatchQueue) (p : String) (note : Option String)
    (now : Int) (h : p ∉ q.ready) :
    (markReady (some q) p note now).ready = q.ready ++ [p] := by
  simp [markReady, h]

lemma markReady_notes (q : DispatchQueue) (p : String) (note : Option String) (now : Int) :
    (markReady (some q) p note now).notes = setNote q.notes p (noteValue note) := by
  simp [markReady]

/-- Invariant of the queue structure: every key of `notes` names a path of
`ready`. -/
def queueInv (q : DispatchQueue) : Prop :=
  ∀ kv ∈ q.notes, kv.1 ∈ q.ready

/-- The invariant lifted to the nullable in-memory queue field. -/
def queueInvO : Option DispatchQueue → Prop
  | none => True
  | some q => queueInv q

/-- A queue with one already-marked path and no note, used as concrete input. -/
def exQueueA : DispatchQueue :=
  { updated_at := 0, ready := ["blog/a.md"], notes := [] }

/-- A queue whose ready list and notes mention only "blog/b.md". -/
def exQueueB : DispatchQueue :=
  { updated_at := 0, ready := ["blog/b.md"], notes := [("blog/b.md", "draft")] }

/-- C3 (counterexample): for the queue holding exactly ready = ["blog/a.md"]
with no notes, markReady("blog/a.md") then unmarkReady("blog/a.md") empties
`ready` instead of restoring it: the round-trip claim fails whenever the path
was already marked before the markReady call. -/
theorem markReady_unmarkReady_cex :
    unmarkReady (some (markReady (some exQueueA) "blog/a.md" none 1)) "blog/a.md" 2 =
      some { updated_at := 2, ready := [], notes := [] } ∧
    (exQueueA.ready == ([] : List String)) = false := by
  constructor
  · rfl
  · rfl

/-- C3 (amended): markReady(p) followed by unmarkReady(p) restores `ready` and
`notes` to their pre-call state, provided the queue is held and p is neither an
element of `ready` nor a key of `notes` before the call (`updated_at` is
re-stamped, as every mutation persists). -/
theorem markReady_unmarkReady_roundtrip (q : DispatchQueue) (p : String)
    (note : Option String) (now1 now2 : Int)
    (hready : p ∉ q.ready) (hnotes : ∀ kv ∈ q.notes, kv.1 ≠ p) :
    unmarkReady (some (markReady (some q) p note now1)) p now2 =
      some { updated_at := now2, ready := q.ready, notes := q.notes } := by
  have h1 : q.ready.filter (fun x => x != p) = q.ready := by
    apply List.filter_eq_self.mpr
    intro a ha
    have hne : a ≠ p := fun hEq => hready (hEq ▸ ha)
    simpa using hne
  have hfilter : (q.ready ++ [p]).filter (fun x => x != p) = q.ready := by
    rw [List.filter_append, h1]
    simp
  have h2 := delNote_setNote q.notes p (noteValue note) hnotes
  simp only [unmarkReady]
  rw [markReady_ready_of_not_mem q p note now1 hready,
    markReady_notes q p note now1, hfilter, h2]

/-- C3 (witness): the round-trip theorem applied to the concrete queue
exQueueB and the fresh path "blog/a.md". -/
theorem markReady_unmarkReady_roundtrip_witness :
    unmarkReady (some (markReady (some exQueueB) "blog/a.md" (some "soon") 1)) "blog/a.md" 2 =
      some { updated_at := 2, ready := exQueueB.ready, notes := exQueueB.notes } :=
  markReady_unmarkReady_roundtrip exQueueB "blog/a.md" (some "soon") 1 2
    (by decide) (by decide)

/-- C8: two markReady calls with (truthy) notes n1 then n2 leave p exactly once
in `ready` with the note of the second call, provided p occurs at most once in
`ready` beforehand (the data model keeps `ready` an ordered set); and a
markReady call with no note stores the default note "Ready for review". -/
theorem markReady_last_note_wins (q : DispatchQueue) (p n1 n2 : String) (now1 now2 : Int)
    (hcount : q.ready.count p ≤ 1) (_h1 : n1 ≠ "") (h2 : n2 ≠ "") :
    (markReady (some (markReady (some q) p (some n1) now1)) p (some n2) now2).ready.count p = 1 ∧
    getNote (markReady (some (markReady (some q) p (some n1) now1)) p (some n2) now2).notes p
      = some n2 ∧
    getNote (markReady (some q) p none now1).notes p = some defaultNote := by
  have hready1 : (markReady (some q) p (some n1) now1).ready.count p = 1 := by
    by_cases hmem : p ∈ q.ready
    · have hpos : 0 < q.ready.count p := List.count_pos_iff.mpr hmem
      rw [markReady_ready_of_mem q p (some n1) now1 hmem]
      omega
    · have hzero : q.ready.count p = 0 := List.count_eq_zero.mpr hmem
      rw [markReady_ready_of_not_mem q p (some n1) now1 hmem, List.count_append, hzero]
      simp
  refine ⟨?_, ?_, ?_⟩
  · have hmem1 : p ∈ (markReady (some q) p (some n1) now1).ready :=
      List.count_pos_iff.mp (by omega)
    rw [markReady_ready_of_mem _ p (some n2) now2 hmem1]
    exact hready1
  · have hv2 : noteValue (some n2) = n2 := by simp [noteValue, h2]
    rw [markReady_notes _ p (some n2) now2, hv2, getNote_setNote]
  · rw [markReady_notes q p none now1]
    have hv : noteValue none = defaultNote := rfl
    rw [hv, getNote_setNote]

/-- C8 (witness): the last-note-wins theorem at the empty queue with
p = "blog/a.md", notes "first pass" then "second pass". -/
theorem markReady_last_note_wins_witness :
    (markReady (some (markReady (some (emptyQueue 0)) "blog/a.md" (some "first pass") 1))
        "blog/a.md" (some "second pass") 2).ready.count "blog/a.md" = 1 ∧
    getNote (markReady (some (markReady (some (emptyQueue 0)) "blog/a.md" (some "first pass") 1))
        "blog/a.md" (some "second pass") 2).notes "blog/a.md" = some "second pass" ∧
    getNote (markReady (some (emptyQueue 0)) "blog/a.md" none 1).notes "blog/a.md"
      = some defaultNote :=
  markReady_last_note_wins (emptyQueue 0) "blog/a.md" "first pass" "second pass" 1 2
    (by decide) (by decide) (by decide)

/-- C10: the invariant "every key of `notes` is an element of `ready`" is
preserved by markReady (for any optional note, including the null-queue
initialisation path) and by unmarkReady. -/
theorem queueInv_preserved (q : Option DispatchQueue) (p : String) (note : Option String)
    (now : Int) (h : queueInvO q) :
    queueInv (markReady q p note now) ∧ queueInvO (unmarkReady q p now) := by
  have main : ∀ q0 : DispatchQueue, queueInv q0 → queueInv (markReady (some q0) p note now) := by
    intro q0 h0 kv hkv
    rw [markReady_notes q0 p note now] at hkv
    rcases mem_setNote q0.notes p (noteValue note) kv hkv with heq | hmem
    · subst heq
      by_cases hc : p ∈ q0.ready
      · rw [markReady_ready_of_mem q0 p note now hc]
        exact hc
      · rw [markReady_ready_of_not_mem q0 p note now hc]
        simp
    · have hin : kv.1 ∈ q0.ready := h0 kv hmem
      by_cases hc : p ∈ q0.ready
      · rw [markReady_ready_of_mem q0 p note now hc]
        exact hin
      · rw [markReady_ready_of_not_mem q0 p note now hc]
        simp [hin]
  constructor
  · cases q with
    | none =>
        have heq : markReady none p note now = markReady (some (emptyQueue now)) p note now := rfl
        rw [heq]
        exact main (emptyQueue now) (by intro kv hkv; simp [emptyQueue] at hkv)
    | some q0 => exact main q0 h
  · cases q with
    | none => simp [unmarkReady, queueInvO]
    | some q0 =>
        intro kv hkv
        simp only [unmarkReady, delNote] at hkv ⊢
        have hmem := List.mem_filter.mp hkv
        have hne : kv.1 ≠ p := by simpa using hmem.2
        have hin : kv.1 ∈ q0.ready := h kv hmem.1
        exact List.mem_filter.mpr ⟨hin, by simpa using hne⟩

/-- C10 (witness): invariant preservation at the held queue exQueueB and the
path "blog/a.md". -/
theorem queueInv_preserved_witness :
    queueInv (markReady (some exQueueB) "blog/a.md" none 1) ∧
    queueInvO (unmarkReady (some exQueueB) "blog/a.md" 1) :=
  queueInv_preserved (some exQueueB) "blog/a.md" none 1
    (by intro kv hkv; simp [exQueueB] at hkv; simp [exQueueB, hkv])

/-! ## StatusReconciler (loadDispatchStatus, isDispatchFresh;
main.ts 341-354 / 412-417, part_000 411-435 / 493-498) -/

/-- `loadDispatchStatus` of src/main.ts: if the status file resolves to a
TFile, read and parse it into `this.dispatchStatus`; if it does not resolve
(absent file) nothing in the body runs; only a thrown read/parse error reaches
the catch, which sets `this.dispatchStatus = null`. -/
def loadDispatchStatus (prev : Option DispatchStatus)
    (file : Option (Except Unit DispatchStatus)) : Option DispatchStatus :=
  match file with
  | none => prev
  | some (Except.error _) => none
  | some (Except.ok s) => some s

/-- Observable actions of the part_000 `loadDispatchStatus` body, in program
order: the `celebratePublish(slug)` call and the assignment to
`this.dispatchStatus`. -/
inductive StatusEvent where
  | celebrate (slug : String)
  | setStatus (s : Option DispatchStatus)
deriving DecidableEq

/-- JS truthiness of a `string | null` value: null and "" are falsy. -/
def jsTruthy : Option String → Bool
  | none => false
  | some s => s != ""

/-- `loadDispatchStatus` of part_000 (the joy variant): same status result as
main.ts, plus the celebration guard
`newStatus.last_publish && enableStreaks && (!this.dispatchStatus ||
this.dispatchStatus.last_publish !== newStatus.last_publish)`, fired before
`this.dispatchStatus = newStatus`. Returns the final held status and the
ordered event trace. -/
def loadDispatchStatusJoy (enableStreaks : Bool) (prev : Option DispatchStatus)
    (file : Option (Except Unit DispatchStatus)) :
    Option DispatchStatus × List StatusEvent :=
  match file with
  | none => (prev, [])
  | some (Except.error _) => (none, [StatusEvent.setStatus none])
  | some (Except.ok newStatus) =>
      let differs : Bool :=
        match prev with
        | none => true
        | some p => p.last_publish != newStatus.last_publish
      if jsTruthy newStatus.last_publish && enableStreaks && differs then
        (some newStatus,
          [StatusEvent.celebrate (newStatus.last_publish.getD ""),
           StatusEvent.setStatus (some newStatus)])
      else
        (some newStatus, [StatusEvent.setStatus (some newStatus)])

/-- A held snapshot used as concrete input in counterexamples. -/
def exStatus : DispatchStatus :=
  { updated_at := 0, last_publish := some "hello-world", files := [],
    stats := { total := 0, drafts := 0, published := 0, total_words := 0 } }

/-- C1 (counterexample): with a snapshot held and the status file absent,
loadDispatchStatus leaves the old snapshot in place (the `if (file && file
instanceof TFile)` guard fails without throwing, so the catch that nulls the
snapshot never runs) — it is not cleared to null as claimed. -/
theorem loadDispatchStatus_absent_cex :
    loadDispatchStatus (some exStatus) none = some exStatus ∧
    ((some exStatus : Option DispatchStatus) == none) = false := by
  constructor
  · rfl
  · rfl

/-- C1 (amended): after a refresh whose read or JSON.parse throws, the held
snapshot is null whatever was held before; after a refresh that finds no
status file, the held snapshot is unchanged (so it is null only if it already
was). Both source variants agree. -/
theorem loadDispatchStatus_failure (prev : Option DispatchStatus) (e : Unit) (flag : Bool) :
    loadDispatchStatus prev (some (Except.error e)) = none ∧
    loadDispatchStatus prev none = prev ∧
    (loadDispatchStatusJoy flag prev (some (Except.error e))).1 = none ∧
    (loadDispatchStatusJoy flag prev none).1 = prev :=
  ⟨rfl, rfl, rfl, rfl⟩

/-- `isDispatchFresh`: a snapshot is fresh when it is held and its
`updated_at` is strictly later than five minutes before now
(`updatedAt > Date.now() - 5 * 60 * 1000`). -/
def isDispatchFresh (status : Option DispatchStatus) (now : Int) : Bool :=
  match status with
  | none => false
  | some s => decide (now - 5 * 60 * 1000 < s.updated_at)

/-- C5 (counterexample): a snapshot whose `updated_at` lies exactly 5 minutes
(300000 ms) in the past has elapsed time at most 5 minutes, yet
isDispatchFresh reports false — the code's comparison is strict. -/
theorem isDispatchFresh_boundary_cex :
    (decide ((300000 : Int) - exStatus.updated_at ≤ 5 * 60 * 1000)) = true ∧
    isDispatchFresh (some exStatus) 300000 = false := by
  constructor
  · rfl
  · rfl

/-- C5 (amended): isDispatchFresh is true iff a snapshot is held and the time
elapsed since its `updated_at` is strictly less than 5 minutes; in particular
it is false for a snapshot 10 minutes old and true for one 1 minute old. -/
theorem isDispatchFresh_iff (status : Option DispatchStatus) (now : Int) :
    (isDispatchFresh status now = true ↔
      ∃ s, status = some s ∧ now - s.updated_at < 5 * 60 * 1000) ∧
    isDispatchFresh (some { exStatus with updated_at := now - 10 * 60 * 1000 }) now = false ∧
    isDispatchFresh (some { exStatus with updated_at := now - 1 * 60 * 1000 }) now = true := by
  refine ⟨?_, ?_, ?_⟩
  · cases status with
    | none => simp [isDispatchFresh]
    | some s =>
        simp only [isDispatchFresh, decide_eq_true_eq]
        constructor
        · intro hlt
          exact ⟨s, rfl, by omega⟩
        · rintro ⟨s', hs', hlt⟩
          cases hs'
          omega
  · simp [isDispatchFresh]
  · simp [isDispatchFresh]

/-! ## MetricsComposer: session milestones (checkSessionMilestones,
part_000 1060-1077) -/

/-- The fixed ascending milestone thresholds of checkSessionMilestones. -/
def milestones : List Nat := [100, 250, 500, 750, 1000, 1500, 2000, 3000, 5000]

/-- The `for (const milestone of milestones) { if (... >= milestone &&
lastMilestoneCelebrated < milestone) { ...; break; } }` loop: returns the new
`lastMilestoneCelebrated` and the milestone celebrated, if any. -/
def milestoneLoop (words last : Nat) : List Nat → Nat × Option Nat
  | [] => (last, none)
  | m :: rest =>
      if words ≥ m ∧ last < m then (m, some m) else milestoneLoop words last rest

/-- `checkSessionMilestones()`: gated on the celebrateMilestones setting;
session words are `Math.max(0, current - sessionStartWordCount)` (truncated
subtraction on `Nat`); then the milestone loop runs. -/
def checkSessionMilestones (flag : Bool) (sessionStart last current : Nat) :
    Nat × Option Nat :=
  if flag then milestoneLoop (current - sessionStart) last milestones else (last, none)

/-- A sequence of checkSessionMilestones calls, one per observed total word
count, threading `lastMilestoneCelebrated`: returns the final state and the
ordered list of celebrated milestones. -/
def runMilestones (flag : Bool) (sessionStart : Nat) : Nat → List Nat → Nat × List Nat
  | last, [] => (last, [])
  | last, c :: cs =>
      match checkSessionMilestones flag sessionStart last c with
      | (l', none) => runMilestones flag sessionStart l' cs
      | (l', some m) =>
          let r := runMilestones flag sessionStart l' cs
          (r.1, m :: r.2)

lemma milestoneLoop_cases (words last : Nat) (L : List Nat) :
    milestoneLoop words last L = (last, none) ∨
    ∃ m, milestoneLoop words last L = (m, some m) ∧ last < m := by
  induction L with
  | nil => exact Or.inl rfl
  | cons m rest ih =>
      by_cases h : words ≥ m ∧ last < m
      · exact Or.inr ⟨m, by simp [milestoneLoop, h], h.2⟩
      · simpa [milestoneLoop, h] using ih

lemma checkSessionMilestones_cases (flag : Bool) (s last c : Nat) :
    checkSessionMilestones flag s last c = (last, none) ∨
    ∃ m, checkSessionMilestones flag s last c = (m, some m) ∧ last < m := by
  unfold checkSessionMilestones
  by_cases hf : flag
  · simpa [hf] using milestoneLoop_cases (c - s) last milestones
  · simp [hf]

lemma runMilestones_pairwise (flag : Bool) (s : Nat) (calls : List Nat) :
    ∀ last : Nat, (last :: (runMilestones flag s last calls).2).Pairwise (· < ·) := by
  induction calls with
  | nil => intro last; simp [runMilestones]
  | cons c cs ih =>
      intro last
      rcases checkSessionMilestones_cases flag s last c with h | ⟨m, h, hlt⟩
      · have : runMilestones flag s last (c :: cs) = runMilestones flag s last cs := by
          simp [runMilestones, h]
        rw [this]
        exact ih last
      · have hrun : (runMilestones flag s last (c :: cs)).2
            = m :: (runMilestones flag s m cs).2 := by
          simp [runMilestones, h]
        rw [hrun]
        have hm := ih m
        rw [List.pairwise_cons]
        refine ⟨?_, hm⟩
        intro b hb
        rcases List.mem_cons.mp hb with hb | hb
        · omega
        · have := (List.pairwise_cons.mp hm).1 b hb
          omega

/-- C4 (counterexample): starting a fresh session (nothing celebrated) and
checking milestones at totals 480 then 510 — the session word count crossing
480 to 510 in one step — fires 100 at the first check and 250 (not 500) at
the second: the loop celebrates the smallest uncelebrated threshold. -/
theorem checkSessionMilestones_cex :
    runMilestones true 0 0 [480, 510] = (250, [100, 250]) := by
  rfl

/-- C4 (amended): across any sequence of checkSessionMilestones calls, the
celebrated milestones are strictly increasing and all exceed the initially
celebrated threshold, so a celebrated threshold (or any lower one) never
re-fires; the 480-to-510 crossing fires the 500 celebration provided the lower
thresholds were already celebrated (lastMilestoneCelebrated = 250); and once
500 is celebrated the 100 celebration can never fire again in the session. -/
theorem checkSessionMilestones_spec :
    (∀ (flag : Bool) (s last : Nat) (calls : List Nat),
        (last :: (runMilestones flag s last calls).2).Pairwise (· < ·)) ∧
    checkSessionMilestones true 0 250 510 = (500, some 500) ∧
    (∀ (s : Nat) (calls : List Nat),
        ((runMilestones true s 500 calls).2).count 100 = 0) := by
  refine ⟨?_, ?_, ?_⟩
  · intro flag s last calls
    exact runMilestones_pairwise flag s calls last
  · rfl
  · intro s calls
    have hp := runMilestones_pairwise true s calls 500
    rw [List.pairwise_cons] at hp
    apply List.count_eq_zero.mpr
    intro hmem
    have := hp.1 100 hmem
    omega

/-! ## StreakTracker (getWritingStreak, part_000 970-987)

Dates are day indices (`Nat`): `[...dates].sort()` on "YYYY-MM-DD" strings is
chronological order, `.reverse()` makes it descending, `isSame/isBefore(-,
"day")` compare days, `subtract(1, "day")` steps one day back. -/

/-- The walk of getWritingStreak: for each date in descending order, a match
with `expected` extends the streak and moves `expected` one day back, a date
strictly before `expected` breaks, a later date is skipped. -/
def streakLoop : List Nat → Nat → Nat → Nat
  | [], _, streak => streak
  | d :: rest, expected, streak =>
      if d = expected then streakLoop rest (expected - 1) (streak + 1)
      else if d < expected then streak
      else streakLoop rest expected streak

/-- `getWritingStreak()`: sort the recorded dates descending, return 0 when
empty, else walk backward from today. -/
def getWritingStreak (dates : List Nat) (today : Nat) : Nat :=
  let sorted := (dates.mergeSort (fun a b => a ≤ b)).reverse
  if sorted.isEmpty then 0 else streakLoop sorted today 0

/-- The descending run of k consecutive days starting at e: [e, e-1, ...]. -/
def descRun : Nat → Nat → List Nat
  | _, 0 => []
  | e, k + 1 => e :: descRun (e - 1) k

lemma mem_descRun_le {d e k : Nat} (h : d ∈ descRun e k) : d ≤ e := by
  induction k generalizing e with
  | zero => simp [descRun] at h
  | succ k ih =>
      rcases List.mem_cons.mp h with rfl | h'
      · exact Nat.le_refl _
      · have := ih h'
        omega

lemma mem_descRun {e k : Nat} (hk : k ≤ e + 1) (d : Nat) :
    d ∈ descRun e k ↔ (e + 1 - k ≤ d ∧ d ≤ e) := by
  induction k generalizing e with
  | zero => simp [descRun]; omega
  | succ k ih =>
      have hk' : k ≤ (e - 1) + 1 := by omega
      simp only [descRun, List.mem_cons, ih hk']
      omega

lemma nodup_descRun (e k : Nat) (hk : k ≤ e + 1) : (descRun e k).Nodup := by
  induction k generalizing e with
  | zero => simp [descRun]
  | succ k ih =>
      have hk' : k ≤ (e - 1) + 1 := by omega
      refine List.nodup_cons.mpr ⟨?_, ih (e - 1) hk'⟩
      intro hmem
      have h1 := (mem_descRun hk' e).mp hmem
      omega

lemma pairwise_descRun (e k : Nat) :
    (descRun e k).Pairwise (fun a b => b ≤ a) := by
  induction k generalizing e with
  | zero => simp [descRun]
  | succ k ih =>
      refine List.pairwise_cons.mpr ⟨?_, ih (e - 1)⟩
      intro b hb
      have := mem_descRun_le hb
      omega

lemma sorted_descRun_reverse (e k : Nat) :
    ((descRun e k).reverse).Pairwise (· ≤ ·) := by
  rw [List.pairwise_reverse]
  exact pairwise_descRun e k

lemma streakLoop_descRun (k : Nat) : ∀ (e s : Nat), streakLoop (descRun e k) e s = s + k := by
  induction k with
  | zero => intro e s; simp [descRun, streakLoop]
  | succ k ih =>
      intro e s
      simp only [descRun, streakLoop, eq_self_iff_true, if_true]
      rw [ih (e - 1) (s + 1)]
      omega

lemma streakLoop_of_no_match (today s : Nat) :
    ∀ l : List Nat, (∀ d ∈ l, d ≠ today) → streakLoop l today s = s := by
  intro l
  induction l with
  | nil => intro _; simp [streakLoop]
  | cons d rest ih =>
      intro h
      have hd : d ≠ today := h d (List.mem_cons_self _ _)
      by_cases hlt : d < today
      · simp [streakLoop, hd, hlt]
      · simp only [streakLoop, if_neg hd, if_neg hlt]
        exact ih (fun d' hd' => h d' (List.mem_cons_of_mem _ hd'))

lemma mergeSort_eq_descRun_reverse (dates : List Nat) (today N : Nat)
    (hN : N ≤ today + 1) (hnd : dates.Nodup)
    (hmem : ∀ d, d ∈ dates ↔ (today + 1 - N ≤ d ∧ d ≤ today)) :
    dates.mergeSort (fun a b => a ≤ b) = (descRun today N).reverse := by
  have htrans : ∀ (a b c : Nat),
      decide (a ≤ b) = true → decide (b ≤ c) = true → decide (a ≤ c) = true := by
    intro a b c hab hbc
    simp only [decide_eq_true_eq] at *
    omega
  have htotal : ∀ (a b : Nat), (decide (a ≤ b) || decide (b ≤ a)) = true := by
    intro a b
    simp only [Bool.or_eq_true, decide_eq_true_eq]
    omega
  have hperm1 : (dates.mergeSort (fun a b => a ≤ b)).Perm dates :=
    List.mergeSort_perm dates _
  have hperm2 : dates.Perm ((descRun today N).reverse) := by
    rw [List.perm_ext_iff_of_nodup hnd (by simpa using nodup_descRun today N hN)]
    intro a
    rw [hmem a, List.mem_reverse, mem_descRun hN a]
  have hsorted1 : (dates.mergeSort (fun a b => a ≤ b)).Pairwise (· ≤ ·) := by
    have := List.sorted_mergeSort htrans htotal dates
    simpa using this
  refine List.eq_of_perm_of_sorted (hperm1.trans hperm2) hsorted1 ?_
  exact sorted_descRun_reverse today N

/-- C2: with distinct recorded dates, getWritingStreak returns 0 whenever
today is absent from the dates; and it returns N whenever the dates are
exactly the N consecutive calendar days ending today (so there is no entry
for the (N+1)-th day back). -/
theorem getWritingStreak_spec (dates : List Nat) (today : Nat) (hnd : dates.Nodup) :
    (today ∉ dates → getWritingStreak dates today = 0) ∧
    (∀ N, N ≤ today + 1 → (∀ d, d ∈ dates ↔ (today + 1 - N ≤ d ∧ d ≤ today)) →
      getWritingStreak dates today = N) := by
  constructor
  · intro habs
    unfold getWritingStreak
    by_cases hempty : ((dates.mergeSort (fun a b => a ≤ b)).reverse).isEmpty
    · simp [hempty]
    · simp only [hempty, if_false, Bool.false_eq_true]
      apply streakLoop_of_no_match
      intro d hd
      have : d ∈ dates := by
        rw [List.mem_reverse] at hd
        have := (List.mergeSort_perm dates (fun a b => a ≤ b)).mem_iff.mp hd
        exact this
      intro hEq
      exact habs (hEq ▸ this)
  · intro N hN hmem
    unfold getWritingStreak
    rw [mergeSort_eq_descRun_reverse dates today N hN hnd hmem, List.reverse_reverse]
    cases N with
    | zero => simp [descRun]
    | succ k =>
        have hne : ¬ (descRun today (k + 1)).isEmpty := by
          simp [descRun]
        simp only [hne, if_false, Bool.false_eq_true]
        rw [streakLoop_descRun (k + 1) today 0]
        omega

/-- C2 (witness): the streak theorem at dates = [10, 9, 8] with today = 10
(streak 3) and at dates = [9, 8] with today = 10 (no entry for today, streak
0). -/
theorem getWritingStreak_spec_witness :
    getWritingStreak [10, 9, 8] 10 = 3 ∧ getWritingStreak [9, 8] 10 = 0 := by
  constructor
  · exact (getWritingStreak_spec [10, 9, 8] 10 (by decide)).2 3 (by omega)
      (by intro d; simp; omega)
  · exact (getWritingStreak_spec [9, 8] 10 (by decide)).1 (by decide)

/-! ## MetricsComposer: daily word count (getDailyWordCount,
main.ts 502-557, part_000 583-638) -/

/-- JS `String.prototype.startsWith`, written over the character lists so
that concrete instances evaluate (core's `String.startsWith` is an extern
the kernel cannot unfold). -/
def strStartsWith (s pre : String) : Bool := pre.data.isPrefixOf s.data

/-- One entry of the host metadata cache's `sections` array: its type and the
start/end lines of its position. -/
structure SectionCache where
  type : String
  startLine : Nat
  endLine : Nat
deriving DecidableEq

/-- A markdown file of the vault: path, modification time (ms), and the
cached sections (none when the metadata cache has no entry). -/
structure VaultFile where
  path : String
  mtime : Int
  sections : Option (List SectionCache)
deriving DecidableEq

/-- `vault.getAbstractFileByPath`. -/
def getAbstractFileByPath (vault : List VaultFile) (p : String) : Option VaultFile :=
  vault.find? (fun f => f.path == p)

/-- The plugin state getDailyWordCount reads: the blog folder setting, the
vault's markdown files, the held status snapshot and the per-day cache. -/
structure WordCountState where
  blogFolder : String
  vaultFiles : List VaultFile
  dispatchStatus : Option DispatchStatus
  dailyWordCountCache : Nat
  dailyWordCountDate : String
deriving DecidableEq

/-- `getDailyWordCount()`: return the cache when it is stamped with today;
else approximate 10 words per paragraph/heading line over blog files modified
today; then, whenever a snapshot is held (`if (this.dispatchStatus)` — not a
freshness check), discard that and sum the snapshot's per-file `word_count`
over its files that exist in the vault with mtime within today. Returns the
value and the state with the refreshed cache. -/
def getDailyWordCount (st : WordCountState) (todayStr : String)
    (todayStart todayEnd : Int) : Nat × WordCountState :=
  if st.dailyWordCountDate = todayStr then (st.dailyWordCountCache, st)
  else
    let files := st.vaultFiles.filter (fun f => strStartsWith f.path (st.blogFolder ++ "/"))
    let wc0 := files.foldl (fun acc f =>
      if todayStart ≤ f.mtime ∧ f.mtime ≤ todayEnd then
        match f.sections with
        | some secs => secs.foldl (fun a s =>
            if s.type = "paragraph" ∨ s.type = "heading" then
              a + (s.endLine - s.startLine + 1) * 10
            else a) acc
        | none => acc
      else acc) 0
    let wc := match st.dispatchStatus with
      | none => wc0
      | some ds => ds.files.foldl (fun acc sf =>
          match getAbstractFileByPath st.vaultFiles sf.path with
          | some vf =>
              if todayStart ≤ vf.mtime ∧ vf.mtime ≤ todayEnd then acc + sf.word_count
              else acc
          | none => acc) 0
    (wc, { st with dailyWordCountCache := wc, dailyWordCountDate := todayStr })

/-- The line-span approximation of a file's words: 10 per paragraph/heading
line over its cached sections. -/
def fileApproxWords (f : VaultFile) : Nat :=
  match f.sections with
  | some secs =>
      ((secs.filter (fun s => s.type == "paragraph" || s.type == "heading")).map
        (fun s => (s.endLine - s.startLine + 1) * 10)).sum
  | none => 0

/-- The fallback daily estimate: the approximation summed over blog files
modified within today. -/
def approxDailyWords (blogFolder : String) (vault : List VaultFile)
    (todayStart todayEnd : Int) : Nat :=
  ((vault.filter (fun f => strStartsWith f.path (blogFolder ++ "/")
      && decide (todayStart ≤ f.mtime) && decide (f.mtime ≤ todayEnd))).map
    fileApproxWords).sum

/-- The snapshot-based daily count: per-file `word_count` summed over the
snapshot's files that resolve in the vault with mtime within today. -/
def snapshotDailyWords (ds : DispatchStatus) (vault : List VaultFile)
    (todayStart todayEnd : Int) : Nat :=
  ((ds.files.filter (fun sf =>
      match getAbstractFileByPath vault sf.path with
      | some vf => decide (todayStart ≤ vf.mtime) && decide (vf.mtime ≤ todayEnd)
      | none => false)).map (fun sf => sf.word_count)).sum

lemma foldl_guard_sum {α : Type} (p : α → Bool) (g : α → Nat) :
    ∀ (l : List α) (acc : Nat),
      l.foldl (fun a x => if p x then a + g x else a) acc
        = acc + ((l.filter p).map g).sum := by
  intro l
  induction l with
  | nil => intro acc; simp
  | cons x xs ih =>
      intro acc
      rw [List.foldl_cons, List.filter_cons]
      by_cases hp : p x = true
      · rw [if_pos hp, if_pos hp, List.map_cons, List.sum_cons, ih (acc + g x)]
        omega
      · rw [if_neg hp, if_neg hp, ih acc]

lemma inner_section_fold (secs : List SectionCache) (acc : Nat) :
    secs.foldl (fun a s =>
        if s.type = "paragraph" ∨ s.type = "heading" then
          a + (s.endLine - s.startLine + 1) * 10
        else a) acc
      = acc + ((secs.filter (fun s => s.type == "paragraph" || s.type == "heading")).map
          (fun s => (s.endLine - s.startLine + 1) * 10)).sum := by
  have hfun : (fun (a : Nat) (s : SectionCache) =>
      if s.type = "paragraph" ∨ s.type = "heading" then
        a + (s.endLine - s.startLine + 1) * 10
      else a)
    = (fun a s =>
        if (s.type == "paragraph" || s.type == "heading") then
          a + (s.endLine - s.startLine + 1) * 10
        else a) := by
    funext a s
    by_cases hc : s.type = "paragraph" ∨ s.type = "heading"
    · rw [if_pos hc, if_pos (by simpa using hc)]
    · rw [if_neg hc, if_neg (by simpa using hc)]
  rw [hfun]
  exact foldl_guard_sum _ _ secs acc

lemma outer_approx_fold (files : List VaultFile) (todayStart todayEnd : Int) :
    files.foldl (fun acc f =>
        if todayStart ≤ f.mtime ∧ f.mtime ≤ todayEnd then
          match f.sections with
          | some secs => secs.foldl (fun a s =>
              if s.type = "paragraph" ∨ s.type = "heading" then
                a + (s.endLine - s.startLine + 1) * 10
              else a) acc
          | none => acc
        else acc) 0
      = ((files.filter (fun f =>
            decide (todayStart ≤ f.mtime) && decide (f.mtime ≤ todayEnd))).map
          fileApproxWords).sum := by
  have hfun : (fun (acc : Nat) (f : VaultFile) =>
      if todayStart ≤ f.mtime ∧ f.mtime ≤ todayEnd then
        match f.sections with
        | some secs => secs.foldl (fun a s =>
            if s.type = "paragraph" ∨ s.type = "heading" then
              a + (s.endLine - s.startLine + 1) * 10
            else a) acc
        | none => acc
      else acc)
    = (fun acc f =>
        if (decide (todayStart ≤ f.mtime) && decide (f.mtime ≤ todayEnd)) then
          acc + fileApproxWords f
        else acc) := by
    funext acc f
    by_cases hc : todayStart ≤ f.mtime ∧ f.mtime ≤ todayEnd
    · rw [if_pos hc, if_pos (by simpa using hc)]
      cases hs : f.sections with
      | none => simp [fileApproxWords, hs]
      | some secs =>
          dsimp only
          rw [inner_section_fold]
          simp [fileApproxWords, hs]
    · rw [if_neg hc, if_neg (by simpa using hc)]
  rw [hfun]
  have := foldl_guard_sum
    (fun f : VaultFile => decide (todayStart ≤ f.mtime) && decide (f.mtime ≤ todayEnd))
    fileApproxWords files 0
  simpa using this

lemma snapshot_fold (dsfiles : List DispatchStatusFile) (vault : List VaultFile)
    (todayStart todayEnd : Int) :
    dsfiles.foldl (fun acc sf =>
        match getAbstractFileByPath vault sf.path with
        | some vf =>
            if todayStart ≤ vf.mtime ∧ vf.mtime ≤ todayEnd then acc + sf.word_count
            else acc
        | none => acc) 0
      = ((dsfiles.filter (fun sf =>
            match getAbstractFileByPath vault sf.path with
            | some vf => decide (todayStart ≤ vf.mtime) && decide (vf.mtime ≤ todayEnd)
            | none => false)).map (fun sf => sf.word_count)).sum := by
  have hfun : (fun (acc : Nat) (sf : DispatchStatusFile) =>
      match getAbstractFileByPath vault sf.path with
      | some vf =>
          if todayStart ≤ vf.mtime ∧ vf.mtime ≤ todayEnd then acc + sf.word_count
          else acc
      | none => acc)
    = (fun acc sf =>
        if (match getAbstractFileByPath vault sf.path with
            | some vf => decide (todayStart ≤ vf.mtime) && decide (vf.mtime ≤ todayEnd)
            | none => false) then acc + sf.word_count else acc) := by
    funext acc sf
    cases h : getAbstractFileByPath vault sf.path with
    | none => simp
    | some vf =>
        dsimp only
        by_cases hc : todayStart ≤ vf.mtime ∧ vf.mtime ≤ todayEnd
        · rw [if_pos hc, if_pos (by simpa using hc)]
        · rw [if_neg hc, if_neg (by simpa using hc)]
  rw [hfun]
  have := foldl_guard_sum
    (fun sf : DispatchStatusFile =>
      match getAbstractFileByPath vault sf.path with
      | some vf => decide (todayStart ≤ vf.mtime) && decide (vf.mtime ≤ todayEnd)
      | none => false)
    (fun sf => sf.word_count) dsfiles 0
  simpa using this

/-- C6 (amended): on a cache miss, getDailyWordCount returns the snapshot's
per-file sum whenever a snapshot is held — fresh or stale (`if
(this.dispatchStatus)` tests presence, not freshness) — and the line-span
approximation only when no snapshot is held at all. -/
theorem getDailyWordCount_branches (st : WordCountState) (todayStr : String)
    (todayStart todayEnd : Int) (hmiss : st.dailyWordCountDate ≠ todayStr) :
    (getDailyWordCount st todayStr todayStart todayEnd).1 =
      match st.dispatchStatus with
      | some ds => snapshotDailyWords ds st.vaultFiles todayStart todayEnd
      | none => approxDailyWords st.blogFolder st.vaultFiles todayStart todayEnd := by
  unfold getDailyWordCount
  rw [if_neg hmiss]
  cases hst : st.dispatchStatus with
  | none =>
      dsimp only
      rw [outer_approx_fold, List.filter_filter]
      unfold approxDailyWords
      congr 1
      congr 1
      apply List.filter_congr
      intro f _
      cases hsw : strStartsWith f.path (st.blogFolder ++ "/") <;>
        cases h1 : decide (todayStart ≤ f.mtime) <;>
        cases h2 : decide (f.mtime ≤ todayEnd) <;> rfl
  | some ds =>
      dsimp only
      rw [snapshot_fold]
      rfl

/-- A vault file whose 1-line paragraph approximates to 10 words. -/
def exVaultFile : VaultFile :=
  { path := "blog/a.md", mtime := 5,
    sections := some [{ type := "paragraph", startLine := 0, endLine := 0 }] }

/-- A stale snapshot (updated_at = 0) reporting 42 words for blog/a.md. -/
def exStaleStatus : DispatchStatus :=
  { updated_at := 0, last_publish := none,
    files := [{ path := "blog/a.md", slug := "a", title := none, published_url := none,
                warnings := [], word_count := 42, is_safe := true, unlisted := false,
                has_password := false, modified := 5 }],
    stats := { total := 1, drafts := 1, published := 0, total_words := 42 } }

/-- The word-count state holding the stale snapshot, with a cold cache. -/
def exWordCountState : WordCountState :=
  { blogFolder := "blog", vaultFiles := [exVaultFile],
    dispatchStatus := some exStaleStatus,
    dailyWordCountCache := 0, dailyWordCountDate := "" }

/-- C6 (counterexample): with the snapshot held but stale (updated_at = 0,
now = 10^9 ms), getDailyWordCount still returns the snapshot sum 42 rather
than the line-span approximation 10 — no fresh snapshot is available, yet the
fallback is not used. -/
theorem getDailyWordCount_stale_cex :
    isDispatchFresh exWordCountState.dispatchStatus 1000000000 = false ∧
    (getDailyWordCount exWordCountState "2026-10-11" 0 10).1 = 42 ∧
    approxDailyWords "blog" [exVaultFile] 0 10 = 10 := by
  refine ⟨?_, ?_, ?_⟩
  · rfl
  · rfl
  · rfl

/-- The word-count state with no snapshot held and a cold cache. -/
def exNoSnapshotState : WordCountState :=
  { blogFolder := "blog", vaultFiles := [exVaultFile], dispatchStatus := none,
    dailyWordCountCache := 0, dailyWordCountDate := "" }

/-- C6 (witness): the branch theorem at a cold-cache state with no snapshot
held, where the result is the approximation. -/
theorem getDailyWordCount_branches_witness :
    (getDailyWordCount exNoSnapshotState "2026-10-11" 0 10).1
      = approxDailyWords "blog" [exVaultFile] 0 10 :=
  getDailyWordCount_branches exNoSnapshotState "2026-10-11" 0 10 (by decide)

/-- A previously held snapshot whose last_publish is "a". -/
def exPrevStatus : DispatchStatus :=
  { updated_at := 0, last_publish := some "a", files := [],
    stats := { total := 0, drafts := 0, published := 0, total_words := 0 } }

/-- A newly parsed snapshot whose last_publish is "b". -/
def exNewStatus : DispatchStatus :=
  { updated_at := 0, last_publish := some "b", files := [],
    stats := { total := 0, drafts := 0, published := 0, total_words := 0 } }

/-- A newly parsed snapshot with no last_publish (null in the JSON). -/
def exNoPublishStatus : DispatchStatus :=
  { updated_at := 0, last_publish := none, files := [],
    stats := { total := 0, drafts := 0, published := 0, total_words := 0 } }

/-- C7 (counterexample): two successful refreshes whose newly read
last_publish differs from the held "a", yet no publish-detected signal is
emitted: with streaks disabled (new value "b"), and with streaks enabled but
the new value null (falsy, so the `newStatus.last_publish &&` guard fails).
Both contradict the claim that a differing last_publish always emits the
signal, and together they force the enableStreaks and truthiness conditions
of the amendment. -/
theorem loadDispatchStatusJoy_no_signal_cex :
    (exPrevStatus.last_publish == exNewStatus.last_publish) = false ∧
    loadDispatchStatusJoy false (some exPrevStatus) (some (Except.ok exNewStatus)) =
      (some exNewStatus, [StatusEvent.setStatus (some exNewStatus)]) ∧
    (exPrevStatus.last_publish == exNoPublishStatus.last_publish) = false ∧
    loadDispatchStatusJoy true (some exPrevStatus) (some (Except.ok exNoPublishStatus)) =
      (some exNoPublishStatus, [StatusEvent.setStatus (some exNoPublishStatus)]) :=
  ⟨rfl, rfl, rfl, rfl⟩

/-- C7 (amended): on a successful refresh, when streaks are enabled, the new
last_publish is a non-empty slug, and it differs from the held value (or no
snapshot is held), celebratePublish fires and does so strictly before the
snapshot is replaced; in every other case — streaks disabled, a falsy (null
or empty) new last_publish, or a held snapshot whose last_publish equals the
new one — no signal is emitted. -/
theorem loadDispatchStatusJoy_spec (prev : Option DispatchStatus) (s : DispatchStatus)
    (slug : String) (hs : s.last_publish = some slug) (hne : slug ≠ "")
    (hdiff : ∀ p, prev = some p → p.last_publish ≠ s.last_publish) :
    loadDispatchStatusJoy true prev (some (Except.ok s)) =
      (some s, [StatusEvent.celebrate slug, StatusEvent.setStatus (some s)]) ∧
    (∀ (flag : Bool) (prev' : Option DispatchStatus) (s' : DispatchStatus),
      flag = false ∨ jsTruthy s'.last_publish = false ∨
        (∃ p, prev' = some p ∧ p.last_publish = s'.last_publish) →
      loadDispatchStatusJoy flag prev' (some (Except.ok s')) =
        (some s', [StatusEvent.setStatus (some s')])) := by
  constructor
  · have htruthy : jsTruthy (some slug) = true := by simp [jsTruthy, hne]
    cases prev with
    | none => simp [loadDispatchStatusJoy, hs, htruthy]
    | some p =>
        have h : (p.last_publish != some slug) = true := by
          have h0 := hdiff p rfl
          rw [hs] at h0
          simpa using h0
        simp [loadDispatchStatusJoy, hs, htruthy, h]
  · intro flag prev' s' hcase
    rcases hcase with rfl | hfalsy | ⟨p, rfl, heq⟩
    · simp [loadDispatchStatusJoy]
    · simp [loadDispatchStatusJoy, hfalsy]
    · have hdiffb : (p.last_publish != s'.last_publish) = false := by
        simpa using heq
      simp [loadDispatchStatusJoy, hdiffb]

/-- C7 (witness): the amended theorem at streaks enabled, no held snapshot and
new last_publish "b" (signal before replacement); at a held snapshot with
equal last_publish (no signal); and at a differing but null new last_publish
with streaks enabled (no signal). -/
theorem loadDispatchStatusJoy_spec_witness :
    loadDispatchStatusJoy true none (some (Except.ok exNewStatus)) =
      (some exNewStatus,
        [StatusEvent.celebrate "b", StatusEvent.setStatus (some exNewStatus)]) ∧
    loadDispatchStatusJoy true (some exNewStatus) (some (Except.ok exNewStatus)) =
      (some exNewStatus, [StatusEvent.setStatus (some exNewStatus)]) ∧
    loadDispatchStatusJoy true (some exPrevStatus) (some (Except.ok exNoPublishStatus)) =
      (some exNoPublishStatus, [StatusEvent.setStatus (some exNoPublishStatus)]) := by
  have h := loadDispatchStatusJoy_spec none exNewStatus "b" (by rfl) (by decide)
    (by intro p hp; cases hp)
  refine ⟨h.1, ?_, ?_⟩
  · exact h.2 true (some exNewStatus) exNewStatus (Or.inr (Or.inr ⟨exNewStatus, rfl, rfl⟩))
  · exact h.2 true (some exPrevStatus) exNoPublishStatus (Or.inr (Or.inl (by rfl)))

/-! ## slugify (main.ts 600-605, part_000 681-686)

`title.toLowerCase().replace(/[^a-z0-9]+/g, "-").replace(/^-|-$/g, "")`,
modelled over the title's character list. -/

/-- A character matched by the regex class [a-z0-9] (codes 97-122 and 48-57). -/
def isSlugChar (c : Char) : Bool :=
  (97 ≤ c.toNat && c.toNat ≤ 122) || (48 ≤ c.toNat && c.toNat ≤ 57)

/-- JS `toLowerCase()` on one character, restricted to the ASCII case map
(codes 65-90 shift by +32); the properties proved below do not depend on the
case map beyond it fixing [a-z0-9-]. -/
def jsToLower (c : Char) : Char :=
  if 65 ≤ c.toNat && c.toNat ≤ 90 then Char.ofNat (c.toNat + 32) else c

/-- `.replace(/[^a-z0-9]+/g, "-")`: each maximal run of non-[a-z0-9]
characters becomes one hyphen. The flag records whether we are inside a run
already replaced by a hyphen. -/
def collapseAux : Bool → List Char → List Char
  | _, [] => []
  | inRun, c :: cs =>
      if isSlugChar c then c :: collapseAux false cs
      else if inRun then collapseAux true cs
      else '-' :: collapseAux true cs

/-- The whole-string regex replacement starts outside any run. -/
def collapseNonAlnum (l : List Char) : List Char := collapseAux false l

/-- The `^-` alternative of `.replace(/^-|-$/g, "")`: one leading hyphen
removed. -/
def stripLeadingHyphen (l : List Char) : List Char :=
  match l with
  | [] => []
  | c :: rest => if c = '-' then rest else c :: rest

/-- The `-$` alternative: one trailing hyphen removed. (The global
alternation removes at most one character at each end.) -/
def stripTrailingHyphen (l : List Char) : List Char :=
  (stripLeadingHyphen l.reverse).reverse

/-- `slugify(title)` over the title's characters. -/
def slugify (s : List Char) : List Char :=
  stripTrailingHyphen (stripLeadingHyphen (collapseNonAlnum (s.map jsToLower)))

/-- No two adjacent hyphens. -/
def RSlug (a b : Char) : Prop := ¬(a = '-' ∧ b = '-')

lemma slugChar_ne_hyphen {c : Char} (h : isSlugChar c = true) : c ≠ '-' := by
  intro hEq
  subst hEq
  exact absurd h (by decide)

lemma charset_collapseAux (l : List Char) :
    ∀ (b : Bool) (c : Char), c ∈ collapseAux b l → isSlugChar c = true ∨ c = '-' := by
  induction l with
  | nil => intro b c hc; simp [collapseAux] at hc
  | cons d ds ih =>
      intro b c hc
      by_cases hd : isSlugChar d
      · simp only [collapseAux, hd, if_true] at hc
        rcases List.mem_cons.mp hc with rfl | hc'
        · exact Or.inl hd
        · exact ih false c hc'
      · simp only [collapseAux, hd, if_false, Bool.false_eq_true] at hc
        cases b with
        | true => exact ih true c (by simpa using hc)
        | false =>
            rcases List.mem_cons.mp (by simpa using hc) with rfl | hc'
            · exact Or.inr rfl
            · exact ih true c hc'

lemma head_collapseAux_true (l : List Char) :
    ∀ c, (collapseAux true l).head? = some c → isSlugChar c = true := by
  induction l with
  | nil => intro c hc; simp [collapseAux] at hc
  | cons d ds ih =>
      intro c hc
      by_cases hd : isSlugChar d
      · simp only [collapseAux, hd, if_true, List.head?_cons, Option.some.injEq] at hc
        exact hc ▸ hd
      · simp only [collapseAux, hd, if_false, Bool.false_eq_true, if_true] at hc
        exact ih c (by simpa using hc)

lemma chain_collapseAux (l : List Char) : ∀ b, (collapseAux b l).Chain' RSlug := by
  induction l with
  | nil => intro b; simp [collapseAux]
  | cons d ds ih =>
      intro b
      by_cases hd : isSlugChar d
      · simp only [collapseAux, hd, if_true]
        refine List.chain'_cons'.mpr ⟨?_, ih false⟩
        intro y _hy
        exact fun hpair => slugChar_ne_hyphen hd hpair.1
      · simp only [collapseAux, hd, if_false, Bool.false_eq_true]
        cases b with
        | true => simpa using ih true
        | false =>
            refine List.chain'_cons'.mpr ⟨?_, ih true⟩
            intro y hy
            have hslug : isSlugChar y = true := head_collapseAux_true ds y hy
            exact fun hpair => slugChar_ne_hyphen hslug hpair.2

lemma mem_stripLeadingHyphen {l : List Char} {c : Char}
    (h : c ∈ stripLeadingHyphen l) : c ∈ l := by
  cases l with
  | nil => simp [stripLeadingHyphen] at h
  | cons d rest =>
      by_cases hd : d = '-'
      · simp only [stripLeadingHyphen, hd, if_true] at h
        exact List.mem_cons_of_mem _ h
      · simpa [stripLeadingHyphen, hd] using h

lemma chain_stripLeadingHyphen {l : List Char} (h : l.Chain' RSlug) :
    (stripLeadingHyphen l).Chain' RSlug := by
  cases l with
  | nil => simp [stripLeadingHyphen]
  | cons d rest =>
      by_cases hd : d = '-'
      · simp only [stripLeadingHyphen, hd, if_true]
        exact (List.chain'_cons'.mp h).2
      · simpa [stripLeadingHyphen, hd] using h

lemma head_stripLeadingHyphen {l : List Char} (hchain : l.Chain' RSlug) :
    ∀ h, (stripLeadingHyphen l).head? = some h → h ≠ '-' := by
  cases l with
  | nil => intro h hh; simp [stripLeadingHyphen] at hh
  | cons d rest =>
      by_cases hd : d = '-'
      · subst hd
        intro h hh
        simp only [stripLeadingHyphen, if_true] at hh
        cases rest with
        | nil => simp at hh
        | cons e es =>
            simp only [List.head?_cons, Option.some.injEq] at hh
            have hR : RSlug '-' e := (List.chain'_cons'.mp hchain).1 e rfl
            subst hh
            exact fun hEq => hR ⟨rfl, hEq⟩
      · intro h hh
        simp only [stripLeadingHyphen, hd, if_false, List.head?_cons, Option.some.injEq] at hh
        subst hh
        exact hd

lemma stripLeadingHyphen_of_head_ne {l : List Char}
    (h : ∀ c, l.head? = some c → c ≠ '-') : stripLeadingHyphen l = l := by
  cases l with
  | nil => rfl
  | cons d rest =>
      have hd : d ≠ '-' := h d rfl
      simp [stripLeadingHyphen, hd]

lemma RSlug_flip : ∀ a b, RSlug a b → flip RSlug a b := by
  intro a b h
  exact fun hpair => h ⟨hpair.2, hpair.1⟩

lemma chain_reverse_of_chain {l : List Char} (h : l.Chain' RSlug) :
    l.reverse.Chain' RSlug := by
  rw [List.chain'_reverse]
  exact h.imp RSlug_flip

lemma mem_stripTrailingHyphen {l : List Char} {c : Char}
    (h : c ∈ stripTrailingHyphen l) : c ∈ l := by
  unfold stripTrailingHyphen at h
  rw [List.mem_reverse] at h
  have := mem_stripLeadingHyphen h
  rwa [List.mem_reverse] at this

lemma chain_stripTrailingHyphen {l : List Char} (h : l.Chain' RSlug) :
    (stripTrailingHyphen l).Chain' RSlug := by
  unfold stripTrailingHyphen
  apply chain_reverse_of_chain
  exact chain_stripLeadingHyphen (chain_reverse_of_chain h)

lemma getLast_stripTrailingHyphen {l : List Char} (hchain : l.Chain' RSlug) :
    ∀ h, (stripTrailingHyphen l).getLast? = some h → h ≠ '-' := by
  intro h hh
  unfold stripTrailingHyphen at hh
  rw [List.getLast?_reverse] at hh
  exact head_stripLeadingHyphen (chain_reverse_of_chain hchain) h hh

lemma stripTrailingHyphen_of_getLast_ne {l : List Char}
    (h : ∀ c, l.getLast? = some c → c ≠ '-') : stripTrailingHyphen l = l := by
  unfold stripTrailingHyphen
  rw [stripLeadingHyphen_of_head_ne, List.reverse_reverse]
  intro c hc
  rw [List.head?_reverse] at hc
  exact h c hc

lemma stripTrailingHyphen_eq_or (l : List Char) :
    stripTrailingHyphen l = l ∨
    ∃ m, l = m ++ ['-'] ∧ stripTrailingHyphen l = m := by
  unfold stripTrailingHyphen
  cases hr : l.reverse with
  | nil =>
      left
      have : l = [] := List.reverse_eq_nil_iff.mp hr
      simp [this, stripLeadingHyphen]
  | cons c rest =>
      by_cases hc : c = '-'
      · right
        refine ⟨rest.reverse, ?_, ?_⟩
        · subst hc
          have : l.reverse.reverse = ('-' :: rest).reverse := by rw [hr]
          rw [List.reverse_reverse] at this
          simpa using this
        · subst hc
          simp [stripLeadingHyphen]
      · left
        have : stripLeadingHyphen (c :: rest) = c :: rest := by
          simp [stripLeadingHyphen, hc]
        rw [this, ← hr, List.reverse_reverse]

lemma head_stripTrailingHyphen {l : List Char} {h : Char}
    (hh : (stripTrailingHyphen l).head? = some h) : l.head? = some h := by
  rcases stripTrailingHyphen_eq_or l with heq | ⟨m, hm, heq⟩
  · rwa [heq] at hh
  · rw [heq] at hh
    rw [hm]
    cases m with
    | nil => simp at hh
    | cons x xs => simpa using hh

lemma jsToLower_fixed {c : Char} (h : isSlugChar c = true ∨ c = '-') :
    jsToLower c = c := by
  rcases h with h | rfl
  · have hn : ¬(65 ≤ c.toNat ∧ c.toNat ≤ 90) := by
      simp only [isSlugChar, Bool.or_eq_true, Bool.and_eq_true, decide_eq_true_eq] at h
      omega
    simp only [jsToLower, Bool.and_eq_true, decide_eq_true_eq, if_neg hn]
  · rfl

lemma map_jsToLower_fixed {l : List Char}
    (h : ∀ c ∈ l, isSlugChar c = true ∨ c = '-') : l.map jsToLower = l := by
  induction l with
  | nil => rfl
  | cons c cs ih =>
      rw [List.map_cons, jsToLower_fixed (h c (List.mem_cons_self _ _)),
        ih (fun x hx => h x (List.mem_cons_of_mem _ hx))]

lemma collapseAux_fixed (g : List Char)
    (hset : ∀ c ∈ g, isSlugChar c = true ∨ c = '-') (hchain : g.Chain' RSlug) :
    collapseAux false g = g ∧
    ((∀ h, g.head? = some h → h ≠ '-') → collapseAux true g = g) := by
  induction g with
  | nil => exact ⟨rfl, fun _ => rfl⟩
  | cons c cs ih =>
      have hset' : ∀ x ∈ cs, isSlugChar x = true ∨ x = '-' :=
        fun x hx => hset x (List.mem_cons_of_mem _ hx)
      have hchain' : cs.Chain' RSlug := (List.chain'_cons'.mp hchain).2
      obtain ⟨ih1, ih2⟩ := ih hset' hchain'
      by_cases hslug : isSlugChar c
      · constructor
        · simp [collapseAux, hslug, ih1]
        · intro _
          simp [collapseAux, hslug, ih1]
      · have hc : c = '-' := by
          rcases hset c (List.mem_cons_self _ _) with h | h
          · exact absurd h hslug
          · exact h
        subst hc
        have hcs : ∀ h, cs.head? = some h → h ≠ '-' := by
          intro h hh
          cases cs with
          | nil => simp at hh
          | cons e es =>
              simp only [List.head?_cons, Option.some.injEq] at hh
              have hR : RSlug '-' e := (List.chain'_cons'.mp hchain).1 e rfl
              subst hh
              exact fun hEq => hR ⟨rfl, hEq⟩
        constructor
        · simp [collapseAux, hslug, ih2 hcs]
        · intro hhead
          exact absurd rfl (hhead '-' rfl)

/-- C9: every slugify output consists only of lowercase ASCII letters, digits
and hyphens, with no two adjacent hyphens and no leading or trailing hyphen;
consequently slugify is idempotent. -/
theorem slugify_spec (s : List Char) :
    (∀ c ∈ slugify s, isSlugChar c = true ∨ c = '-') ∧
    (slugify s).Chain' RSlug ∧
    (∀ h, (slugify s).head? = some h → h ≠ '-') ∧
    (∀ h, (slugify s).getLast? = some h → h ≠ '-') ∧
    slugify (slugify s) = slugify s := by
  have hset_u : ∀ c ∈ collapseNonAlnum (s.map jsToLower), isSlugChar c = true ∨ c = '-' :=
    fun c hc => charset_collapseAux (s.map jsToLower) false c hc
  have hchain_u : (collapseNonAlnum (s.map jsToLower)).Chain' RSlug :=
    chain_collapseAux (s.map jsToLower) false
  have hchain_m : (stripLeadingHyphen (collapseNonAlnum (s.map jsToLower))).Chain' RSlug :=
    chain_stripLeadingHyphen hchain_u
  have hhead_m := head_stripLeadingHyphen hchain_u
  have hset : ∀ c ∈ slugify s, isSlugChar c = true ∨ c = '-' := by
    intro c hc
    exact hset_u c (mem_stripLeadingHyphen (mem_stripTrailingHyphen hc))
  have hchain : (slugify s).Chain' RSlug := chain_stripTrailingHyphen hchain_m
  have hhead : ∀ h, (slugify s).head? = some h → h ≠ '-' := by
    intro h hh
    exact hhead_m h (head_stripTrailingHyphen hh)
  have hlast : ∀ h, (slugify s).getLast? = some h → h ≠ '-' :=
    fun h hh => getLast_stripTrailingHyphen hchain_m h hh
  refine ⟨hset, hchain, hhead, hlast, ?_⟩
  have hcoll : collapseNonAlnum (slugify s) = slugify s :=
    (collapseAux_fixed (slugify s) hset hchain).1
  calc slugify (slugify s)
      = stripTrailingHyphen (stripLeadingHyphen
          (collapseNonAlnum ((slugify s).map jsToLower))) := rfl
    _ = slugify s := by
        rw [map_jsToLower_fixed hset, hcoll,
          stripLeadingHyphen_of_head_ne (fun c hc => hhead c hc),
          stripTrailingHyphen_of_getLast_ne (fun c hc => hlast c hc)]
